import Mathlib

/-!
Shallow embedding of the raydar path tracer (CPU renderer core) and proofs
about its specification.

Modelling conventions:
* `f32` scalars are modelled as exact rationals (`ℚ`).  Square roots, which
  are not rational-valued, are threaded through as an explicit oracle
  `sqrt : ℚ → ℚ`; theorems that depend on the numerical value of a square
  root carry hypotheses pinning the oracle down at exactly the arguments the
  code evaluates it at.
* The camera (`Camera.orbit`, `Camera.zoom`) uses transcendental functions
  (`atan2`, `asin`, `sin`, `cos`, `sqrt`), so it is modelled over `ℝ`.
* IEEE division by zero matters for the cube slab intersection, so that code
  is modelled over `FVal`, rationals extended with signed infinities and NaN,
  with Rust `f32::min` / `f32::max` / comparison semantics.
* A Rust `panic!` / failed `assert!` / `todo!` is modelled as `none`.
-/

/-- 3-component vector over exact rationals, modelling `cgmath::Vector3<f32>`
(and `Point3<f32>`, which carries the same data). -/
structure Vec3 where
  x : ℚ
  y : ℚ
  z : ℚ
deriving DecidableEq, Repr

/-- 4-component vector over exact rationals, modelling `cgmath::Vector4<f32>`. -/
structure Vec4 where
  x : ℚ
  y : ℚ
  z : ℚ
  w : ℚ
deriving DecidableEq, Repr

def Vec3.add (a b : Vec3) : Vec3 := ⟨a.x + b.x, a.y + b.y, a.z + b.z⟩

def Vec3.sub (a b : Vec3) : Vec3 := ⟨a.x - b.x, a.y - b.y, a.z - b.z⟩

def Vec3.neg (a : Vec3) : Vec3 := ⟨-a.x, -a.y, -a.z⟩

def Vec3.smul (q : ℚ) (a : Vec3) : Vec3 := ⟨q * a.x, q * a.y, q * a.z⟩

/-- Component-wise product, modelling `cgmath`'s `mul_element_wise`. -/
def Vec3.mulE (a b : Vec3) : Vec3 := ⟨a.x * b.x, a.y * b.y, a.z * b.z⟩

/-- Dot product, modelling `cgmath`'s `InnerSpace::dot`. -/
def Vec3.dot (a b : Vec3) : ℚ := a.x * b.x + a.y * b.y + a.z * b.z

def Vec3.zero : Vec3 := ⟨0, 0, 0⟩

instance : Add Vec3 := ⟨Vec3.add⟩

instance : Sub Vec3 := ⟨Vec3.sub⟩

instance : Neg Vec3 := ⟨Vec3.neg⟩

instance : SMul ℚ Vec3 := ⟨Vec3.smul⟩

instance : Zero Vec3 := ⟨Vec3.zero⟩

def Vec4.add (a b : Vec4) : Vec4 := ⟨a.x + b.x, a.y + b.y, a.z + b.z, a.w + b.w⟩

def Vec4.zero : Vec4 := ⟨0, 0, 0, 0⟩

instance : Add Vec4 := ⟨Vec4.add⟩

instance : Zero Vec4 := ⟨Vec4.zero⟩

@[simp] theorem Vec3.add_x (a b : Vec3) : (a + b).x = a.x + b.x := rfl

@[simp] theorem Vec3.add_y (a b : Vec3) : (a + b).y = a.y + b.y := rfl

@[simp] theorem Vec3.add_z (a b : Vec3) : (a + b).z = a.z + b.z := rfl

@[simp] theorem Vec3.sub_x (a b : Vec3) : (a - b).x = a.x - b.x := rfl

@[simp] theorem Vec3.sub_y (a b : Vec3) : (a - b).y = a.y - b.y := rfl

@[simp] theorem Vec3.sub_z (a b : Vec3) : (a - b).z = a.z - b.z := rfl

@[simp] theorem Vec3.neg_x (a : Vec3) : (-a).x = -a.x := rfl

@[simp] theorem Vec3.neg_y (a : Vec3) : (-a).y = -a.y := rfl

@[simp] theorem Vec3.neg_z (a : Vec3) : (-a).z = -a.z := rfl

@[simp] theorem Vec3.smul_x (q : ℚ) (a : Vec3) : (q • a).x = q * a.x := rfl

@[simp] theorem Vec3.smul_y (q : ℚ) (a : Vec3) : (q • a).y = q * a.y := rfl

@[simp] theorem Vec3.smul_z (q : ℚ) (a : Vec3) : (q • a).z = q * a.z := rfl

@[simp] theorem Vec4.add_x4 (a b : Vec4) : (a + b).x = a.x + b.x := rfl

@[simp] theorem Vec4.add_y4 (a b : Vec4) : (a + b).y = a.y + b.y := rfl

@[simp] theorem Vec4.add_z4 (a b : Vec4) : (a + b).z = a.z + b.z := rfl

@[simp] theorem Vec4.add_w4 (a b : Vec4) : (a + b).w = a.w + b.w := rfl

theorem Vec3.ext_comp (a b : Vec3) (hx : a.x = b.x) (hy : a.y = b.y)
    (hz : a.z = b.z) : a = b := by
  cases a; cases b; simp_all

theorem Vec4.ext_comp4 (a b : Vec4) (hx : a.x = b.x) (hy : a.y = b.y)
    (hz : a.z = b.z) (hw : a.w = b.w) : a = b := by
  cases a; cases b; simp_all

/-- `cgmath` `normalize`: `self * (1 / magnitude)`, with the square root
supplied by the oracle `sqrt`. -/
def Vec3.normalize (sqrt : ℚ → ℚ) (v : Vec3) : Vec3 :=
  (1 / sqrt (v.dot v)) • v

/-- `utils::Reflect::reflect`: `self - normal * self.dot(normal) * 2.0`. -/
def Vec3.reflect (v n : Vec3) : Vec3 :=
  v - (v.dot n * 2) • n

/-- `scene::material::Material` (the fields used by the CPU integrator). -/
structure Material where
  albedo : Vec3
  roughness : ℚ
  metallic : ℚ
  emission_color : Vec3
  emission_strength : ℚ
  transmission : ℚ
  ior : ℚ
deriving DecidableEq, Repr

/-- `scene::objects::Sphere`. -/
structure Sphere where
  center : Vec3
  radius : ℚ
deriving DecidableEq, Repr

/-- `scene::objects::Cube`. -/
structure Cube where
  center : Vec3
  side_length : ℚ
deriving DecidableEq, Repr

/-- `renderer::cpu::Ray` (origin is a `Point3`, carried as `Vec3` data). -/
structure Ray where
  origin : Vec3
  direction : Vec3
deriving DecidableEq, Repr

/-- `scene::world::World`. -/
inductive World where
  | SkyColor (top_color bottom_color : Vec3)
  | SolidColor (color : Vec3)
  | Transparent
deriving DecidableEq, Repr

/-- `cgmath` `VectorSpace::lerp`: `self + (other - self) * amount`. -/
def Vec3.lerp (a b : Vec3) (t : ℚ) : Vec3 :=
  a + t • (b - a)

/-- `World::sample`.  The `SkyColor` arm divides the dot product with world-up
by the product of the magnitudes (square roots via the oracle).  The
`Transparent` arm is `todo!("transparent world support")` in the source, i.e.
a panic, modelled as `none`. -/
def World.sample (sqrt : ℚ → ℚ) : World → Ray → Option Vec3
  | World.SkyColor top_color bottom_color, ray =>
      let up : Vec3 := ⟨0, 1, 0⟩
      let cosine_similarity :=
        ray.direction.dot up /
          (sqrt (ray.direction.dot ray.direction) * sqrt (up.dot up))
      some (bottom_color.lerp top_color ((cosine_similarity + 1) * (1 / 2)))
  | World.SolidColor color, _ => some color
  | World.Transparent, _ => none

/-- `Ray::hit_sphere`'s quadratic coefficient `a = self.direction.dot(self.direction)`. -/
def Ray.sphereA (ray : Ray) : ℚ := ray.direction.dot ray.direction

/-- `Ray::hit_sphere`'s half coefficient
`k = origin_vec.dot(self.direction) - self.direction.dot(sphere_center_vec)`. -/
def Ray.sphereK (ray : Ray) (sphere : Sphere) : ℚ :=
  ray.origin.dot ray.direction - ray.direction.dot sphere.center

/-- `Ray::hit_sphere`'s constant coefficient
`c = origin_vec.dot(origin_vec) - 2.0 * origin_vec.dot(sphere_center_vec)
   + sphere_center_vec.dot(sphere_center_vec) - sphere.radius * sphere.radius`. -/
def Ray.sphereC (ray : Ray) (sphere : Sphere) : ℚ :=
  ray.origin.dot ray.origin - 2 * ray.origin.dot sphere.center
    + sphere.center.dot sphere.center
    - sphere.radius * sphere.radius

/-- `Ray::hit_sphere`'s discriminant `k * k - a * c`. -/
def Ray.sphereDisc (ray : Ray) (sphere : Sphere) : ℚ :=
  ray.sphereK sphere * ray.sphereK sphere - ray.sphereA * ray.sphereC sphere

/-- `Ray::hit_sphere`: solves `a t^2 + 2 k t + c = 0` exactly as the source
does, taking the square root of the discriminant from the oracle. -/
def Ray.hitSphere (sqrt : ℚ → ℚ) (ray : Ray) (sphere : Sphere) : Option ℚ :=
  let a := ray.sphereA
  let k := ray.sphereK sphere
  let discriminant := ray.sphereDisc sphere
  if discriminant < 0 then
    none
  else
    let sqrt_discriminant := sqrt discriminant
    let t1 := (-k - sqrt_discriminant) / a
    let t2 := (-k + sqrt_discriminant) / a
    if t1 ≥ 0 then
      some t1
    else if t2 ≥ 0 then
      some t2
    else
      none

/-- IEEE-754-style scalar for the cube slab intersection: a rational, a signed
infinity, or NaN.  `Ray::hit_cube` divides by raw direction components, so
`f32` division by zero (yielding `±inf`, or NaN for `0.0 / 0.0`) is
observable there and must be modelled. -/
inductive FVal where
  | nan : FVal
  | inf : FVal
  | ninf : FVal
  | fin (q : ℚ) : FVal
deriving DecidableEq, Repr

/-- IEEE division of a finite numerator by a finite denominator (the only
division `hit_cube` performs).  `q / 0` is `±inf` by the sign of `q`, and
`0 / 0` is NaN.  (`ℚ` has no negative zero; the claims under study only
involve non-negative zero denominators.) -/
def FVal.div (n d : ℚ) : FVal :=
  if d ≠ 0 then .fin (n / d)
  else if n > 0 then .inf
  else if n < 0 then .ninf
  else .nan

/-- Rust `f32::min`: if one argument is NaN the other is returned. -/
def FVal.fmin : FVal → FVal → FVal
  | .nan, b => b
  | a, .nan => a
  | .ninf, _ => .ninf
  | _, .ninf => .ninf
  | .inf, b => b
  | a, .inf => a
  | .fin p, .fin q => .fin (min p q)

/-- Rust `f32::max`: if one argument is NaN the other is returned. -/
def FVal.fmax : FVal → FVal → FVal
  | .nan, b => b
  | a, .nan => a
  | .inf, _ => .inf
  | _, .inf => .inf
  | .ninf, b => b
  | a, .ninf => a
  | .fin p, .fin q => .fin (max p q)

/-- IEEE `<`: comparisons involving NaN are false. -/
def FVal.flt : FVal → FVal → Bool
  | .nan, _ => false
  | _, .nan => false
  | .ninf, .ninf => false
  | .ninf, _ => true
  | _, .ninf => false
  | .inf, _ => false
  | .fin _, .inf => true
  | .fin p, .fin q => decide (p < q)

/-- The per-axis slab values `t1 = (min - origin) / direction` and
`t2 = (max - origin) / direction` of `Ray::hit_cube`, as a pair of
component-wise `FVal` triples. -/
def Ray.cubeSlabs (ray : Ray) (cube : Cube) : (FVal × FVal × FVal) × (FVal × FVal × FVal) :=
  let half_size : Vec3 := ⟨cube.side_length * (1 / 2), cube.side_length * (1 / 2),
    cube.side_length * (1 / 2)⟩
  let lo := cube.center - half_size
  let hi := cube.center + half_size
  (⟨FVal.div (lo.x - ray.origin.x) ray.direction.x,
    FVal.div (lo.y - ray.origin.y) ray.direction.y,
    FVal.div (lo.z - ray.origin.z) ray.direction.z⟩,
   ⟨FVal.div (hi.x - ray.origin.x) ray.direction.x,
    FVal.div (hi.y - ray.origin.y) ray.direction.y,
    FVal.div (hi.z - ray.origin.z) ray.direction.z⟩)

/-- `tmin = t1.x.min(t2.x).max(t1.y.min(t2.y)).max(t1.z.min(t2.z))`. -/
def Ray.cubeTmin (ray : Ray) (cube : Cube) : FVal :=
  let s := ray.cubeSlabs cube
  ((s.1.1.fmin s.2.1).fmax (s.1.2.1.fmin s.2.2.1)).fmax (s.1.2.2.fmin s.2.2.2)

/-- `tmax = t1.x.max(t2.x).min(t1.y.max(t2.y)).min(t1.z.max(t2.z))`. -/
def Ray.cubeTmax (ray : Ray) (cube : Cube) : FVal :=
  let s := ray.cubeSlabs cube
  ((s.1.1.fmax s.2.1).fmin (s.1.2.1.fmax s.2.2.1)).fmin (s.1.2.2.fmax s.2.2.2)

/-- `Ray::hit_cube`: the slab method, with the source's early-outs
(`tmax < 0.0`, then `tmin > tmax`) and inside-the-box handling
(`tmin < 0.0` returns the exit point `tmax`). -/
def Ray.hitCube (ray : Ray) (cube : Cube) : Option FVal :=
  let tmin := ray.cubeTmin cube
  let tmax := ray.cubeTmax cube
  if tmax.flt (.fin 0) then
    none
  else if tmax.flt tmin then
    none
  else if tmin.flt (.fin 0) then
    some tmax
  else
    some tmin

/-- The `Rgba32FImage` accumulation buffer: dimensions plus a pixel map.
Pixels are addressed by `(x, y)`; values outside `width × height` are
irrelevant (the source buffer has no such pixels) and are left untouched by
every operation. -/
structure FrameBuffer where
  width : ℕ
  height : ℕ
  pix : ℕ → ℕ → Vec4

/-- A freshly allocated `Rgba32FImage::new` (all zeroes). -/
def FrameBuffer.blank (w h : ℕ) : FrameBuffer :=
  ⟨w, h, fun _ _ => Vec4.zero⟩

/-- The tonemapped 8-bit output image (`RgbaImage`), one `(r,g,b,a)` byte
quadruple per pixel. -/
structure RgbaImage where
  width : ℕ
  height : ℕ
  pix : ℕ → ℕ → ℕ × ℕ × ℕ × ℕ

/-- One display channel: `((fb / sample_count).clamp(0.0, 1.0) * 255.0) as u8`.
The `f32 as u8` cast truncates toward zero; the clamped value is in
`[0, 255]`, so this is the floor. -/
def toneChannel (v : ℚ) (sample_count : ℕ) : ℕ :=
  (⌊(min (max (v / (sample_count : ℚ)) 0) 1) * 255⌋).toNat

/-- `CpuRenderer::print_frame_buffer`: tonemap every accumulation-buffer pixel
into the output image. -/
def printFrameBuffer (sample_count : ℕ) (fb : FrameBuffer) : RgbaImage :=
  ⟨fb.width, fb.height, fun x y =>
    (toneChannel (fb.pix x y).x sample_count,
     toneChannel (fb.pix x y).y sample_count,
     toneChannel (fb.pix x y).z sample_count,
     toneChannel (fb.pix x y).w sample_count)⟩

/-- The per-pixel sample oracle: `contrib s x y` is the `Vec4` that
`self.per_pixel(uv(x, y), scene)` returns for pixel `(x, y)` while
`sample_count = s`.  The path tracer draws thread-local random numbers, so
per-sample results are modelled as this oracle rather than a function of the
scene alone. -/
def Contrib : Type := ℕ → ℕ → ℕ → Vec4

/-- `CpuRenderer` state: the optional accumulation buffer, the sample count,
and the `RendererConfig` field the sample pump reads.  The profiler only
records wall-clock times and is not modelled. -/
structure CpuRenderer where
  frameBuffer : Option FrameBuffer
  sampleCount : ℕ
  maxSampleCount : ℕ

/-- `CpuRenderer::frame_buffer`: take the stored buffer; if its size differs
from the scene resolution (or there is none), replace it with a freshly
zeroed buffer at the scene resolution. -/
def CpuRenderer.frameBufferFor (r : CpuRenderer) (resX resY : ℕ) : FrameBuffer :=
  match r.frameBuffer with
  | some fb =>
      if fb.width ≠ resX ∨ fb.height ≠ resY then FrameBuffer.blank resX resY
      else fb
  | none => FrameBuffer.blank resX resY

/-- The buffer mutation of `CpuRenderer::render_next_sample`: every pixel of
the `width × height` grid gains one `per_pixel` contribution. -/
def FrameBuffer.accumulate (contrib : Contrib) (s : ℕ) (fb : FrameBuffer) : FrameBuffer :=
  { fb with pix := fun x y =>
      if x < fb.width ∧ y < fb.height then fb.pix x y + contrib s x y
      else fb.pix x y }

/-- `CpuRenderer::new_frame`: reallocate/zero the buffer at the scene
resolution and reset the sample count. -/
def CpuRenderer.newFrame (r : CpuRenderer) (resX resY : ℕ) : CpuRenderer :=
  { r with frameBuffer := some (FrameBuffer.blank resX resY), sampleCount := 0 }

/-- `CpuRenderer::render_sample`: refuse once `sample_count` has reached
`max_sample_count`; otherwise take the (possibly resized) buffer, accumulate
one sample over all pixels, increment `sample_count`, store the buffer back
and return the tonemapped image. -/
def CpuRenderer.renderSample (contrib : Contrib) (r : CpuRenderer) (resX resY : ℕ) :
    CpuRenderer × Option RgbaImage :=
  if r.maxSampleCount ≤ r.sampleCount then
    (r, none)
  else
    let fb := r.frameBufferFor resX resY
    let fb2 := fb.accumulate contrib r.sampleCount
    let r2 : CpuRenderer :=
      { r with sampleCount := r.sampleCount + 1, frameBuffer := some fb2 }
    (r2, some (printFrameBuffer r2.sampleCount fb2))

/-- `n` successive `render_sample` calls; returns the final renderer state and
the image returned by the last call (`none` before any call). -/
def CpuRenderer.renderSampleIter (contrib : Contrib) (resX resY : ℕ) :
    ℕ → CpuRenderer → CpuRenderer × Option RgbaImage
  | 0, r => (r, none)
  | n + 1, r =>
      let s := CpuRenderer.renderSampleIter contrib resX resY n r
      CpuRenderer.renderSample contrib s.1 resX resY

/-- Component-wise sum of the first `n` per-sample contributions at a pixel. -/
def contribSum (contrib : Contrib) (x y : ℕ) : ℕ → Vec4
  | 0 => Vec4.zero
  | n + 1 => contribSum contrib x y n + contrib n x y

/-- C3, counterexample to the claim as stated: on a `Transparent` world,
`World::sample` does not return black — it hits `todo!("transparent world
support")` and panics (modelled as `none`), so its result differs from
`some` of the zero vector. -/
theorem claim_C3_counterexample :
    World.sample (fun q => q) World.Transparent ⟨⟨0, 0, 0⟩, ⟨0, 0, 1⟩⟩ ≠
      some Vec3.zero := by
  simp [World.sample]

/-- C3 (amended): `World::sample` on `SolidColor(c)` returns `c` for every
ray; on `Transparent` it panics (`todo!`), modelled as `none`, for every
ray — it does not return black. -/
theorem claim_C3 (sqrt : ℚ → ℚ) (c : Vec3) (ray : Ray) :
    World.sample sqrt (World.SolidColor c) ray = some c ∧
      World.sample sqrt World.Transparent ray = none := by
  exact ⟨rfl, rfl⟩

/-- C5: `Ray::hit_cube` follows the slab method: miss when `tmax < 0` or
`tmin > tmax` (IEEE comparisons, `tmin > tmax` being `tmax < tmin`), exit
point `tmax` when `tmin < 0` (origin inside), `tmin` otherwise; and on the
cube of side 2 at the origin, the ray from `(0,0,-5)` toward `(0,0,1)` hits
at `t = 4` while the ray toward `(1,0,0)` misses. -/
theorem claim_C5 (ray : Ray) (cube : Cube) :
    (Ray.hitCube ray cube =
      (if (ray.cubeTmax cube).flt (FVal.fin 0) then none
       else if (ray.cubeTmax cube).flt (ray.cubeTmin cube) then none
       else if (ray.cubeTmin cube).flt (FVal.fin 0) then some (ray.cubeTmax cube)
       else some (ray.cubeTmin cube))) ∧
    Ray.hitCube ⟨⟨0, 0, -5⟩, ⟨0, 0, 1⟩⟩ ⟨⟨0, 0, 0⟩, 2⟩ = some (FVal.fin 4) ∧
    Ray.hitCube ⟨⟨0, 0, -5⟩, ⟨1, 0, 0⟩⟩ ⟨⟨0, 0, 0⟩, 2⟩ = none := by
  refine ⟨rfl, ?_, ?_⟩
  · norm_num [Ray.hitCube, Ray.cubeTmin, Ray.cubeTmax, Ray.cubeSlabs, FVal.div,
      FVal.fmin, FVal.fmax, FVal.flt]
  · norm_num [Ray.hitCube, Ray.cubeTmin, Ray.cubeTmax, Ray.cubeSlabs, FVal.div,
      FVal.fmin, FVal.fmax, FVal.flt]

/-- C1: after `new_frame`, a `render_sample` call with
`sample_count < max_sample_count` accumulates exactly one per-pixel sample
over all pixels, increments `sample_count` by exactly 1 and returns `Some`
image; a call with `sample_count ≥ max_sample_count` returns `None` and
leaves the whole renderer state (buffer and count) unchanged. -/
theorem claim_C1 (contrib : Contrib) (r : CpuRenderer) (fb : FrameBuffer)
    (resX resY : ℕ) :
    (r.maxSampleCount ≤ r.sampleCount →
      r.renderSample contrib resX resY = (r, none)) ∧
    (r.sampleCount < r.maxSampleCount → r.frameBuffer = some fb →
      fb.width = resX → fb.height = resY →
      (r.renderSample contrib resX resY).1.sampleCount = r.sampleCount + 1 ∧
      (r.renderSample contrib resX resY).1.frameBuffer =
        some (fb.accumulate contrib r.sampleCount) ∧
      (∀ x y, x < resX → y < resY →
        (fb.accumulate contrib r.sampleCount).pix x y =
          fb.pix x y + contrib r.sampleCount x y) ∧
      (r.renderSample contrib resX resY).2 =
        some (printFrameBuffer (r.sampleCount + 1)
          (fb.accumulate contrib r.sampleCount))) := by
  constructor
  · intro h
    simp [CpuRenderer.renderSample, h]
  · intro hlt hfb hw hh
    have hnot : ¬ r.maxSampleCount ≤ r.sampleCount := not_le.mpr hlt
    have hbuf : r.frameBufferFor resX resY = fb := by
      simp [CpuRenderer.frameBufferFor, hfb, hw, hh]
    refine ⟨?_, ?_, ?_, ?_⟩
    · simp [CpuRenderer.renderSample, hnot]
    · simp [CpuRenderer.renderSample, hnot, hbuf]
    · intro x y hx hy
      simp [FrameBuffer.accumulate, hw, hh, hx, hy]
    · simp [CpuRenderer.renderSample, hnot, hbuf]

/-- C1 witness: at `max_sample_count = 2`, a renderer with `sample_count = 2`
is left unchanged with result `none`, and one with `sample_count = 0` over a
`1 × 1` buffer increments to 1. -/
theorem claim_C1_witness :
    (CpuRenderer.renderSample (fun _ _ _ => Vec4.zero)
        ⟨some (FrameBuffer.blank 1 1), 2, 2⟩ 1 1 =
      (⟨some (FrameBuffer.blank 1 1), 2, 2⟩, none)) ∧
    (CpuRenderer.renderSample (fun _ _ _ => Vec4.zero)
        ⟨some (FrameBuffer.blank 1 1), 0, 2⟩ 1 1).1.sampleCount = 0 + 1 := by
  constructor
  · exact (claim_C1 (fun _ _ _ => Vec4.zero) ⟨some (FrameBuffer.blank 1 1), 2, 2⟩
      (FrameBuffer.blank 1 1) 1 1).1 (by norm_num)
  · exact ((claim_C1 (fun _ _ _ => Vec4.zero) ⟨some (FrameBuffer.blank 1 1), 0, 2⟩
      (FrameBuffer.blank 1 1) 1 1).2 (by norm_num) rfl rfl rfl).1

/-- The exact accumulation buffer contents after `n` samples at resolution
`resX × resY`: every in-range pixel holds the component-wise sum of the `n`
per-sample contributions (out-of-range coordinates keep the blank value). -/
def accumBuffer (contrib : Contrib) (resX resY n : ℕ) : FrameBuffer :=
  ⟨resX, resY, fun x y =>
    if x < resX ∧ y < resY then contribSum contrib x y n else Vec4.zero⟩

theorem accumBuffer_zero (contrib : Contrib) (resX resY : ℕ) :
    accumBuffer contrib resX resY 0 = FrameBuffer.blank resX resY := by
  unfold accumBuffer FrameBuffer.blank
  congr 1
  funext x y
  split <;> rfl

theorem accumBuffer_accumulate (contrib : Contrib) (resX resY n : ℕ) :
    (accumBuffer contrib resX resY n).accumulate contrib n =
      accumBuffer contrib resX resY (n + 1) := by
  unfold accumBuffer FrameBuffer.accumulate
  simp only
  congr 1
  funext x y
  by_cases h : x < resX ∧ y < resY
  · simp [h, contribSum]
  · simp [h]

/-- State/result of `n ≤ max_sample_count` successive `render_sample` calls
after a `new_frame` at resolution `resX × resY`. -/
theorem renderSampleIter_closed (contrib : Contrib) (r0 : CpuRenderer)
    (resX resY : ℕ) :
    ∀ n, n ≤ r0.maxSampleCount →
      CpuRenderer.renderSampleIter contrib resX resY n (r0.newFrame resX resY) =
        ({ r0 with
            frameBuffer := some (accumBuffer contrib resX resY n),
            sampleCount := n },
          if n = 0 then none
          else some (printFrameBuffer n (accumBuffer contrib resX resY n))) := by
  intro n
  induction n with
  | zero =>
      intro _
      simp [CpuRenderer.renderSampleIter, CpuRenderer.newFrame, accumBuffer_zero]
  | succ m ih =>
      intro hle
      have hm : m ≤ r0.maxSampleCount := Nat.le_of_succ_le hle
      have hlt : m < r0.maxSampleCount := Nat.lt_of_succ_le hle
      unfold CpuRenderer.renderSampleIter
      rw [ih hm]
      have hnot : ¬ r0.maxSampleCount ≤ m := not_le.mpr hlt
      have hw : (accumBuffer contrib resX resY m).width = resX := rfl
      have hh : (accumBuffer contrib resX resY m).height = resY := rfl
      simp only [CpuRenderer.renderSample, CpuRenderer.frameBufferFor, hnot,
        if_false, hw, hh, ne_eq, not_true_eq_false, or_self, if_neg,
        accumBuffer_accumulate]
      simp [accumBuffer_accumulate]

/-- C2: after `new_frame` and `N` successful `render_sample` calls at a fixed
resolution, every in-range accumulation-buffer pixel equals the
component-wise sum of the `N` per-pixel sample contributions, and each
channel of the image returned by the `N`-th call is
`clamp(sum / N, 0, 1) * 255` truncated to an 8-bit integer. -/
theorem claim_C2 (contrib : Contrib) (r0 : CpuRenderer) (resX resY N : ℕ)
    (hpos : 0 < N) (hle : N ≤ r0.maxSampleCount) :
    (∃ fb, (CpuRenderer.renderSampleIter contrib resX resY N
        (r0.newFrame resX resY)).1.frameBuffer = some fb ∧
      (∀ x y, x < resX → y < resY → fb.pix x y = contribSum contrib x y N) ∧
      (CpuRenderer.renderSampleIter contrib resX resY N
        (r0.newFrame resX resY)).2 = some (printFrameBuffer N fb)) ∧
    (∀ x y, x < resX → y < resY →
      (printFrameBuffer N (accumBuffer contrib resX resY N)).pix x y =
        ((⌊min (max ((contribSum contrib x y N).x / (N : ℚ)) 0) 1 * 255⌋).toNat,
         (⌊min (max ((contribSum contrib x y N).y / (N : ℚ)) 0) 1 * 255⌋).toNat,
         (⌊min (max ((contribSum contrib x y N).z / (N : ℚ)) 0) 1 * 255⌋).toNat,
         (⌊min (max ((contribSum contrib x y N).w / (N : ℚ)) 0) 1 * 255⌋).toNat)) := by
  have hclosed := renderSampleIter_closed contrib r0 resX resY N hle
  constructor
  · refine ⟨accumBuffer contrib resX resY N, ?_, ?_, ?_⟩
    · rw [hclosed]
    · intro x y hx hy
      simp [accumBuffer, hx, hy]
    · rw [hclosed]
      simp [Nat.pos_iff_ne_zero.mp hpos]
  · intro x y hx hy
    simp [printFrameBuffer, accumBuffer, hx, hy, toneChannel]

/-- C2 witness: one sample at `1 × 1` with `max_sample_count = 1`. -/
theorem claim_C2_witness :
    (∃ fb, (CpuRenderer.renderSampleIter (fun _ _ _ => Vec4.zero) 1 1 1
        (CpuRenderer.newFrame ⟨none, 0, 1⟩ 1 1)).1.frameBuffer = some fb ∧
      (∀ x y, x < 1 → y < 1 →
        fb.pix x y = contribSum (fun _ _ _ => Vec4.zero) x y 1) ∧
      (CpuRenderer.renderSampleIter (fun _ _ _ => Vec4.zero) 1 1 1
        (CpuRenderer.newFrame ⟨none, 0, 1⟩ 1 1)).2 =
          some (printFrameBuffer 1 fb)) := by
  exact (claim_C2 (fun _ _ _ => Vec4.zero) ⟨none, 0, 1⟩ 1 1 1
    (by norm_num) (by norm_num)).1

/-- C10: calling `render_sample` with `sample_count < max_sample_count` on a
scene whose resolution differs from the stored buffer discards the previous
accumulation for a zero-filled buffer at the new resolution, does not reset
`sample_count` (it is only incremented), and tonemaps the single new sample
divided by the retained, larger count. -/
theorem claim_C10 (contrib : Contrib) (r : CpuRenderer) (fb : FrameBuffer)
    (resX resY : ℕ) (hfb : r.frameBuffer = some fb)
    (hmismatch : fb.width ≠ resX ∨ fb.height ≠ resY)
    (hlt : r.sampleCount < r.maxSampleCount) :
    (r.renderSample contrib resX resY).1.frameBuffer =
      some ((FrameBuffer.blank resX resY).accumulate contrib r.sampleCount) ∧
    (r.renderSample contrib resX resY).1.sampleCount = r.sampleCount + 1 ∧
    (r.renderSample contrib resX resY).2 =
      some (printFrameBuffer (r.sampleCount + 1)
        ((FrameBuffer.blank resX resY).accumulate contrib r.sampleCount)) ∧
    (∀ x y, x < resX → y < resY →
      ((FrameBuffer.blank resX resY).accumulate contrib r.sampleCount).pix x y =
        Vec4.zero + contrib r.sampleCount x y) ∧
    (∀ x y, x < resX → y < resY →
      (printFrameBuffer (r.sampleCount + 1)
          ((FrameBuffer.blank resX resY).accumulate contrib r.sampleCount)).pix x y =
        (toneChannel (Vec4.zero + contrib r.sampleCount x y).x (r.sampleCount + 1),
         toneChannel (Vec4.zero + contrib r.sampleCount x y).y (r.sampleCount + 1),
         toneChannel (Vec4.zero + contrib r.sampleCount x y).z (r.sampleCount + 1),
         toneChannel (Vec4.zero + contrib r.sampleCount x y).w (r.sampleCount + 1))) := by
  have hnot : ¬ r.maxSampleCount ≤ r.sampleCount := not_le.mpr hlt
  have hbuf : r.frameBufferFor resX resY = FrameBuffer.blank resX resY := by
    rcases hmismatch with h | h <;>
      simp [CpuRenderer.frameBufferFor, hfb, h]
  refine ⟨?_, ?_, ?_, ?_, ?_⟩
  · simp [CpuRenderer.renderSample, hnot, hbuf]
  · simp [CpuRenderer.renderSample, hnot]
  · simp [CpuRenderer.renderSample, hnot, hbuf]
  · intro x y hx hy
    simp [FrameBuffer.accumulate, FrameBuffer.blank, hx, hy]
  · intro x y hx hy
    simp [printFrameBuffer, FrameBuffer.accumulate, FrameBuffer.blank, hx, hy]

/-- C10 witness: a `1 × 1` buffer with `sample_count = 3` is asked to render
at `2 × 2`: the count moves to 4, not 1. -/
theorem claim_C10_witness :
    (CpuRenderer.renderSample (fun _ _ _ => Vec4.zero)
        ⟨some (FrameBuffer.blank 1 1), 3, 5⟩ 2 2).1.frameBuffer =
      some ((FrameBuffer.blank 2 2).accumulate (fun _ _ _ => Vec4.zero) 3) ∧
    (CpuRenderer.renderSample (fun _ _ _ => Vec4.zero)
        ⟨some (FrameBuffer.blank 1 1), 3, 5⟩ 2 2).1.sampleCount = 3 + 1 := by
  have h := claim_C10 (fun _ _ _ => Vec4.zero) ⟨some (FrameBuffer.blank 1 1), 3, 5⟩
    (FrameBuffer.blank 1 1) 2 2 rfl (by norm_num [FrameBuffer.blank]) (by norm_num)
  exact ⟨h.1, h.2.1⟩

theorem Vec3.add_assoc3 (a b c : Vec3) : a + b + c = a + (b + c) := by
  apply Vec3.ext_comp <;> simp <;> ring

theorem Vec3.add_zero3 (a : Vec3) : a + Vec3.zero = a := by
  apply Vec3.ext_comp <;> simp [Vec3.zero]

theorem Vec3.zero_add3 (a : Vec3) : Vec3.zero + a = a := by
  apply Vec3.ext_comp <;> simp [Vec3.zero]

theorem Vec3.mulE_one (a : Vec3) : a.mulE ⟨1, 1, 1⟩ = a := by
  cases a; simp [Vec3.mulE]

theorem Vec3.mulE_assoc (a b c : Vec3) : (a.mulE b).mulE c = a.mulE (b.mulE c) := by
  cases a; cases b; cases c; simp [Vec3.mulE]; ring_nf; trivial

/-- The light/attenuation updates performed at a surface hit inside
`CpuRenderer::per_pixel`'s bounce loop:
`attenuation = attenuation.mul_element_wise(material.albedo)` and
`light += material.emission_color * material.emission_strength`.
Returns `(light, attenuation)` after the hit. -/
def hitUpdate (m : Material) (light attenuation : Vec3) : Vec3 × Vec3 :=
  (light + m.emission_strength • m.emission_color, attenuation.mulE m.albedo)

/-- Modelled from the spec for comparison with the source (claim C6): the
same update but with the albedo clamped to `[0,1]` component-wise before
use, as the claim asserts. -/
def hitUpdateClamped (m : Material) (light attenuation : Vec3) : Vec3 × Vec3 :=
  (light + m.emission_strength • m.emission_color,
   attenuation.mulE
     ⟨min (max m.albedo.x 0) 1, min (max m.albedo.y 0) 1, min (max m.albedo.z 0) 1⟩)

/-- `CpuRenderer::per_pixel`'s bounce loop projected onto its
`(light, attenuation)` state.  `hits i` is the material of the object the
`i`-th bounce ray hits (`none` for a miss), `env i` the environment radiance
`world.sample(ray)` for the `i`-th ray; the chosen outgoing directions do not
feed back into light or attenuation, so they are not part of this
projection.  On a miss the loop adds the environment contribution modulated
by the current attenuation and terminates; otherwise it performs
`hitUpdate` and continues, for at most `fuel` (`max_bounces`) iterations. -/
def bounceLoopLight (hits : ℕ → Option Material) (env : ℕ → Vec3) :
    ℕ → ℕ → Vec3 → Vec3 → Vec3
  | 0, _, light, _ => light
  | fuel + 1, i, light, att =>
      match hits i with
      | some m =>
          bounceLoopLight hits env fuel (i + 1)
            (hitUpdate m light att).1 (hitUpdate m light att).2
      | none => light + (env i).mulE att

/-- Sum of `emission_color * emission_strength` over hits `i, …, i+k-1`. -/
def emissionSumFrom (M : ℕ → Material) (i : ℕ) : ℕ → Vec3
  | 0 => Vec3.zero
  | k + 1 =>
      (M i).emission_strength • (M i).emission_color + emissionSumFrom M (i + 1) k

/-- Component-wise product of the (unclamped) albedos of hits `i, …, i+k-1`. -/
def albedoProdFrom (M : ℕ → Material) (i : ℕ) : ℕ → Vec3
  | 0 => ⟨1, 1, 1⟩
  | k + 1 => ((M i).albedo).mulE (albedoProdFrom M (i + 1) k)

theorem bounceLoopLight_run (hits : ℕ → Option Material) (env : ℕ → Vec3)
    (M : ℕ → Material) :
    ∀ k i fuel light att, (∀ j, j < k → hits (i + j) = some (M (i + j))) →
      hits (i + k) = none → k < fuel →
      bounceLoopLight hits env fuel i light att =
        light + emissionSumFrom M i k +
          (env (i + k)).mulE (att.mulE (albedoProdFrom M i k)) := by
  intro k
  induction k with
  | zero =>
      intro i fuel light att _ hmiss hfuel
      obtain ⟨f, rfl⟩ : ∃ f, fuel = f + 1 :=
        ⟨fuel - 1, by omega⟩
      simp only [Nat.add_zero] at hmiss
      simp [bounceLoopLight, hmiss, emissionSumFrom, albedoProdFrom,
        Vec3.add_zero3, Vec3.mulE_one]
  | succ k ih =>
      intro i fuel light att hhits hmiss hfuel
      obtain ⟨f, rfl⟩ : ∃ f, fuel = f + 1 :=
        ⟨fuel - 1, by omega⟩
      have hi : hits i = some (M i) := by
        have := hhits 0 (by omega)
        simpa using this
      have hhits1 : ∀ j, j < k → hits (i + 1 + j) = some (M (i + 1 + j)) := by
        intro j hj
        have h1 : i + 1 + j = i + (j + 1) := by omega
        rw [h1]
        exact hhits (j + 1) (by omega)
      have hmiss1 : hits (i + 1 + k) = none := by
        have h1 : i + 1 + k = i + (k + 1) := by omega
        rw [h1]; exact hmiss
      have hf : k < f := by omega
      have := ih (i + 1) f
        (light + (M i).emission_strength • (M i).emission_color)
        (att.mulE (M i).albedo) hhits1 hmiss1 hf
      simp only [bounceLoopLight, hi, hitUpdate]
      rw [this]
      have hidx : i + 1 + k = i + (k + 1) := by omega
      rw [hidx, Vec3.add_assoc3]
      simp only [emissionSumFrom, albedoProdFrom, Vec3.mulE_assoc]
      apply Vec3.ext_comp <;> simp <;> ring

/-- C6, counterexample to the claim as stated: the integrator multiplies the
attenuation by the raw albedo, not by the albedo clamped to `[0,1]`; with
albedo `(2,2,2)` the source update and the claimed clamped update differ. -/
theorem claim_C6_counterexample :
    hitUpdate ⟨⟨2, 2, 2⟩, 0, 0, Vec3.zero, 0, 0, (3 : ℚ) / 2⟩ Vec3.zero ⟨1, 1, 1⟩ ≠
      hitUpdateClamped ⟨⟨2, 2, 2⟩, 0, 0, Vec3.zero, 0, 0, (3 : ℚ) / 2⟩
        Vec3.zero ⟨1, 1, 1⟩ := by
  intro h
  have h2 := congrArg (fun p => (Prod.snd p).x) h
  norm_num [hitUpdate, hitUpdateClamped, Vec3.mulE] at h2

/-- C6 (amended): at every surface hit in the bounce loop the throughput
attenuation is multiplied component-wise by the material's *raw* albedo (no
clamping to `[0,1]` is applied), and the accumulated light grows by
`emission_color * emission_strength`; consequently a path with `k` hits and
then a miss yields the emission sum plus the environment radiance modulated
by the product of the raw albedos. -/
theorem claim_C6 (hits : ℕ → Option Material) (env : ℕ → Vec3)
    (M : ℕ → Material) (k fuel : ℕ)
    (hhits : ∀ j, j < k → hits j = some (M j)) (hmiss : hits k = none)
    (hfuel : k < fuel) :
    (∀ i f light att m, hits i = some m →
      bounceLoopLight hits env (f + 1) i light att =
        bounceLoopLight hits env f (i + 1)
          (light + m.emission_strength • m.emission_color)
          (att.mulE m.albedo)) ∧
    bounceLoopLight hits env fuel 0 Vec3.zero ⟨1, 1, 1⟩ =
      emissionSumFrom M 0 k + (env k).mulE (albedoProdFrom M 0 k) := by
  constructor
  · intro i f light att m hm
    simp [bounceLoopLight, hm, hitUpdate]
  · have := bounceLoopLight_run hits env M k 0 fuel Vec3.zero ⟨1, 1, 1⟩
      (by intro j hj; simpa using hhits j hj) (by simpa using hmiss) hfuel
    rw [this, Vec3.zero_add3]
    congr 1
    apply Vec3.ext_comp <;> simp [Vec3.mulE]

/-- C6 witness: one emissive hit with albedo `(2,2,2)` followed by a miss. -/
theorem claim_C6_witness :
    bounceLoopLight (fun j => if j = 0 then some ⟨⟨2, 2, 2⟩, 0, 0, ⟨1, 0, 0⟩, 1, 0, (3 : ℚ) / 2⟩ else none)
        (fun _ => ⟨1, 1, 1⟩) 2 0 Vec3.zero ⟨1, 1, 1⟩ =
      emissionSumFrom (fun _ => ⟨⟨2, 2, 2⟩, 0, 0, ⟨1, 0, 0⟩, 1, 0, (3 : ℚ) / 2⟩) 0 1 +
        (⟨1, 1, 1⟩ : Vec3).mulE
          (albedoProdFrom (fun _ => ⟨⟨2, 2, 2⟩, 0, 0, ⟨1, 0, 0⟩, 1, 0, (3 : ℚ) / 2⟩) 0 1) := by
  exact (claim_C6 (fun j => if j = 0 then some ⟨⟨2, 2, 2⟩, 0, 0, ⟨1, 0, 0⟩, 1, 0, (3 : ℚ) / 2⟩ else none)
    (fun _ => ⟨1, 1, 1⟩) (fun _ => ⟨⟨2, 2, 2⟩, 0, 0, ⟨1, 0, 0⟩, 1, 0, (3 : ℚ) / 2⟩) 1 2
    (by intro j hj; have : j = 0 := by omega
        subst this; rfl)
    (by rfl) (by norm_num)).2

/-- C4: with `a = d·d`, `k = o·d − d·c`, `c = o·o − 2 o·c + c·c − r²` and an
exact square root of the discriminant `k² − a c`, `Ray::hit_sphere` returns
`none` exactly when the discriminant is negative or no root of
`a t² + 2 k t + c = 0` is non-negative, and any returned `t` is the smallest
non-negative root. -/
theorem claim_C4 (sqrt : ℚ → ℚ) (ray : Ray) (sphere : Sphere)
    (ha : 0 < ray.sphereA)
    (hs : 0 ≤ ray.sphereDisc sphere →
      0 ≤ sqrt (ray.sphereDisc sphere) ∧
        sqrt (ray.sphereDisc sphere) * sqrt (ray.sphereDisc sphere) =
          ray.sphereDisc sphere) :
    (Ray.hitSphere sqrt ray sphere = none ↔
      ray.sphereDisc sphere < 0 ∨
        ∀ t, ray.sphereA * t ^ 2 + 2 * ray.sphereK sphere * t +
          ray.sphereC sphere = 0 → t < 0) ∧
    (∀ t, Ray.hitSphere sqrt ray sphere = some t →
      ray.sphereA * t ^ 2 + 2 * ray.sphereK sphere * t +
        ray.sphereC sphere = 0 ∧ 0 ≤ t ∧
      ∀ u, ray.sphereA * u ^ 2 + 2 * ray.sphereK sphere * u +
        ray.sphereC sphere = 0 → 0 ≤ u → t ≤ u) := by
  by_cases hd : ray.sphereDisc sphere < 0
  · have hnone : Ray.hitSphere sqrt ray sphere = none := by
      unfold Ray.hitSphere
      rw [if_pos hd]
    refine ⟨?_, ?_⟩
    · rw [hnone]
      simp only [true_iff]
      exact Or.inl hd
    · intro t ht
      rw [hnone] at ht
      exact absurd ht (by simp)
  · push_neg at hd
    obtain ⟨hs0, hs2⟩ := hs hd
    have hs2' : sqrt (ray.sphereDisc sphere) * sqrt (ray.sphereDisc sphere) =
        ray.sphereK sphere * ray.sphereK sphere -
          ray.sphereA * ray.sphereC sphere := hs2
    have hfac : ∀ t, ray.sphereA * t ^ 2 + 2 * ray.sphereK sphere * t +
        ray.sphereC sphere =
        ray.sphereA *
          (t - (-ray.sphereK sphere - sqrt (ray.sphereDisc sphere)) / ray.sphereA) *
          (t - (-ray.sphereK sphere + sqrt (ray.sphereDisc sphere)) / ray.sphereA) := by
      intro t
      field_simp
      ring_nf
      linear_combination hs2'
    have hroot : ∀ t, (ray.sphereA * t ^ 2 + 2 * ray.sphereK sphere * t +
        ray.sphereC sphere = 0 ↔
        t = (-ray.sphereK sphere - sqrt (ray.sphereDisc sphere)) / ray.sphereA ∨
        t = (-ray.sphereK sphere + sqrt (ray.sphereDisc sphere)) / ray.sphereA) := by
      intro t
      rw [hfac t]
      constructor
      · intro h
        rcases mul_eq_zero.mp h with h1 | h2
        · rcases mul_eq_zero.mp h1 with h3 | h4
          · exact absurd h3 (ne_of_gt ha)
          · exact Or.inl (sub_eq_zero.mp h4)
        · exact Or.inr (sub_eq_zero.mp h2)
      · intro h
        rcases h with h | h <;> subst h <;> ring
    have hle : (-ray.sphereK sphere - sqrt (ray.sphereDisc sphere)) / ray.sphereA ≤
        (-ray.sphereK sphere + sqrt (ray.sphereDisc sphere)) / ray.sphereA := by
      rw [div_le_div_iff ha ha]
      nlinarith [hs0, ha]
    have hrun : Ray.hitSphere sqrt ray sphere =
        if (-ray.sphereK sphere - sqrt (ray.sphereDisc sphere)) / ray.sphereA ≥ 0 then
          some ((-ray.sphereK sphere - sqrt (ray.sphereDisc sphere)) / ray.sphereA)
        else if (-ray.sphereK sphere + sqrt (ray.sphereDisc sphere)) / ray.sphereA ≥ 0 then
          some ((-ray.sphereK sphere + sqrt (ray.sphereDisc sphere)) / ray.sphereA)
        else none := by
      unfold Ray.hitSphere
      rw [if_neg (not_lt.mpr hd)]
    by_cases h1 : (-ray.sphereK sphere - sqrt (ray.sphereDisc sphere)) / ray.sphereA ≥ 0
    · rw [hrun, if_pos h1]
      refine ⟨?_, ?_⟩
      · simp only [reduceCtorEq, false_iff]
        intro hcase
        rcases hcase with hneg | hall
        · exact absurd hneg (not_lt.mpr hd)
        · exact absurd h1 (not_le.mpr (hall _ ((hroot _).mpr (Or.inl rfl))))
      · intro t ht
        have ht' := Option.some.inj ht
        subst ht'
        refine ⟨(hroot _).mpr (Or.inl rfl), h1, ?_⟩
        intro u hu _
        rcases (hroot u).mp hu with h | h <;> subst h
        · exact le_refl _
        · exact hle
    · by_cases h2 : (-ray.sphereK sphere + sqrt (ray.sphereDisc sphere)) / ray.sphereA ≥ 0
      · rw [hrun, if_neg h1, if_pos h2]
        refine ⟨?_, ?_⟩
        · simp only [reduceCtorEq, false_iff]
          intro hcase
          rcases hcase with hneg | hall
          · exact absurd hneg (not_lt.mpr hd)
          · exact absurd h2 (not_le.mpr (hall _ ((hroot _).mpr (Or.inr rfl))))
        · intro t ht
          have ht' := Option.some.inj ht
          subst ht'
          refine ⟨(hroot _).mpr (Or.inr rfl), h2, ?_⟩
          intro u hu h0u
          rcases (hroot u).mp hu with h | h <;> subst h
          · exact absurd h0u (not_le.mpr (lt_of_not_ge h1))
          · exact le_refl _
      · rw [hrun, if_neg h1, if_neg h2]
        refine ⟨?_, ?_⟩
        · simp only [true_iff]
          refine Or.inr ?_
          intro t ht
          rcases (hroot t).mp ht with h | h <;> subst h
          · exact lt_of_not_ge h1
          · exact lt_of_not_ge h2
        · intro t ht
          exact absurd ht (by simp)

/-- C4 witness: the unit sphere at the origin against the ray from
`(0,0,-2)` toward `(0,0,1)` (discriminant 1, exact square root): the
returned hit `t = 1` is the quadratic's smaller non-negative root. -/
theorem claim_C4_witness :
    Ray.sphereA ⟨⟨0, 0, -2⟩, ⟨0, 0, 1⟩⟩ * 1 ^ 2 +
      2 * Ray.sphereK ⟨⟨0, 0, -2⟩, ⟨0, 0, 1⟩⟩ ⟨⟨0, 0, 0⟩, 1⟩ * 1 +
      Ray.sphereC ⟨⟨0, 0, -2⟩, ⟨0, 0, 1⟩⟩ ⟨⟨0, 0, 0⟩, 1⟩ = 0 ∧ (0 : ℚ) ≤ 1 ∧
    ∀ u, Ray.sphereA ⟨⟨0, 0, -2⟩, ⟨0, 0, 1⟩⟩ * u ^ 2 +
      2 * Ray.sphereK ⟨⟨0, 0, -2⟩, ⟨0, 0, 1⟩⟩ ⟨⟨0, 0, 0⟩, 1⟩ * u +
      Ray.sphereC ⟨⟨0, 0, -2⟩, ⟨0, 0, 1⟩⟩ ⟨⟨0, 0, 0⟩, 1⟩ = 0 → 0 ≤ u → (1 : ℚ) ≤ u :=
  (claim_C4 (fun q => if q = 1 then 1 else 0)
    ⟨⟨0, 0, -2⟩, ⟨0, 0, 1⟩⟩ ⟨⟨0, 0, 0⟩, 1⟩
    (by norm_num [Ray.sphereA, Vec3.dot])
    (by
      intro _
      norm_num [Ray.sphereDisc, Ray.sphereA, Ray.sphereK, Ray.sphereC, Vec3.dot])).2
    1
    (by norm_num [Ray.hitSphere, Ray.sphereA, Ray.sphereK, Ray.sphereC,
      Ray.sphereDisc, Vec3.dot])

theorem Vec3.dot_comm (a b : Vec3) : a.dot b = b.dot a := by
  cases a; cases b; simp [Vec3.dot]; ring

theorem Vec3.dot_add_right (a b c : Vec3) : a.dot (b + c) = a.dot b + a.dot c := by
  cases a; cases b; cases c; simp [Vec3.dot]; ring

theorem Vec3.dot_smul_right (q : ℚ) (a b : Vec3) : a.dot (q • b) = q * a.dot b := by
  cases a; cases b; simp [Vec3.dot]; ring

theorem Vec3.dot_smul_left (q : ℚ) (a b : Vec3) : (q • a).dot b = q * a.dot b := by
  cases a; cases b; simp [Vec3.dot]; ring

theorem Vec3.dot_neg_right (a b : Vec3) : a.dot (-b) = -(a.dot b) := by
  cases a; cases b; simp [Vec3.dot]; ring

theorem Vec3.dot_add_left (a b c : Vec3) : (a + b).dot c = a.dot c + b.dot c := by
  cases a; cases b; cases c; simp [Vec3.dot]; ring

/-- Cauchy–Schwarz for the 3-component dot product. -/
theorem Vec3.dot_sq_le (a b : Vec3) : (a.dot b) ^ 2 ≤ (a.dot a) * (b.dot b) := by
  obtain ⟨a1, a2, a3⟩ := a
  obtain ⟨b1, b2, b3⟩ := b
  simp only [Vec3.dot]
  nlinarith [sq_nonneg (a1 * b2 - a2 * b1), sq_nonneg (a1 * b3 - a3 * b1),
    sq_nonneg (a2 * b3 - a3 * b2)]

/-- The `cos_theta = self.dot(-normal).min(1.0)` subterm shared by
`can_refract`, `refract` and the integrator's Schlick computation. -/
def Vec3.refractCos (v n : Vec3) : ℚ := min (v.dot (-n)) 1

/-- The `perpendicular` component computed by `refract`:
`ior_ratio * (self + cos_theta * normal)`. -/
def Vec3.refractPerp (v n : Vec3) (ior_ratio : ℚ) : Vec3 :=
  ior_ratio • (v + v.refractCos n • n)

/-- `utils::Refract::can_refract` for `Vector3<f32>`: asserts the incoming
direction is unit length (tolerance `1e-6`; a failed assert panics, modelled
as `none`), then tests `ior_ratio * sin_theta <= 1.0`. -/
def Vec3.canRefract (sqrt : ℚ → ℚ) (v n : Vec3) (ior_ratio : ℚ) : Option Bool :=
  if ¬ |v.dot v - 1| < 1 / 1000000 then none
  else
    let cos_theta := v.refractCos n
    let sin_theta := sqrt (1 - cos_theta * cos_theta)
    some (decide (ior_ratio * sin_theta ≤ 1))

/-- `utils::Refract::refract` for `Vector3<f32>`: asserts both the incoming
direction and the normal are unit length (tolerance `1e-6`, panics modelled
as `none`), then returns
`perpendicular + parallel` with
`perpendicular = ior_ratio * (self + cos_theta * normal)` and
`parallel = -(1 - |perpendicular|^2).abs().sqrt() * normal`. -/
def Vec3.refract (sqrt : ℚ → ℚ) (v n : Vec3) (ior_ratio : ℚ) : Option Vec3 :=
  if ¬ |v.dot v - 1| < 1 / 1000000 then none
  else if ¬ |n.dot n - 1| < 1 / 1000000 then none
  else
    let perpendicular := v.refractPerp n ior_ratio
    let parallel := (-(sqrt |1 - perpendicular.dot perpendicular|)) • n
    some (perpendicular + parallel)

/-- The transmission branch of `CpuRenderer::per_pixel` (the
`transmission_ray` arm): compute `ior` from the face orientation, normalize
the incoming direction, evaluate Schlick's approximation, and either refract
(guarded by `can_refract`, with the roughness perturbation `offset` added and
the sum re-normalized) or fall back to the precomputed specular direction.
`ξ` is the uniform draw compared against the reflection coefficient.  A panic
inside `can_refract`/`refract` propagates as `none`; `refract` is invoked
only in the `can_refract = true` branch, exactly as in the source. -/
def transmissionDirection (sqrt : ℚ → ℚ) (ξ : ℚ) (offset : Vec3) (mat_ior : ℚ)
    (front_face : Bool) (ray_dir normal specular : Vec3) : Option Vec3 :=
  let ior := if front_face then 1 / mat_ior else mat_ior
  let ray_direction := ray_dir.normalize sqrt
  let cos_theta := ray_direction.refractCos normal
  let r0 := ((ior - 1) / (ior + 1)) ^ 2
  let reflection_coefficient := r0 + (1 - r0) * (1 - cos_theta) ^ 5
  if reflection_coefficient < ξ then
    match ray_direction.canRefract sqrt normal ior with
    | none => none
    | some true =>
        match ray_direction.refract sqrt normal ior with
        | none => none
        | some refracted => some ((refracted + offset).normalize sqrt)
    | some false => some specular
  else some specular

/-- C7: with an exactly unit incoming direction and hit normal (which is what
`per_pixel` supplies: the normal is normalized per geometry and the ray
direction is constructed normalized) and a square-root oracle that is exact
at the three points the branch evaluates it at, the transmission branch of
the integrator never panics — the unit-length assertions inside `can_refract`
and `refract` hold, and `refract` is reached only under the `can_refract`
guard — and the direction `refract` returns is unit length. -/
theorem claim_C7 (sqrt : ℚ → ℚ) (ξ : ℚ) (offset : Vec3) (mat_ior : ℚ)
    (front_face : Bool) (ray_dir normal specular : Vec3)
    (hd : ray_dir.dot ray_dir = 1) (hn : normal.dot normal = 1)
    (h1 : sqrt 1 = 1) (hior : 0 < mat_ior)
    (hsin : 0 ≤ sqrt (1 - ray_dir.refractCos normal * ray_dir.refractCos normal) ∧
      sqrt (1 - ray_dir.refractCos normal * ray_dir.refractCos normal) *
        sqrt (1 - ray_dir.refractCos normal * ray_dir.refractCos normal) =
        1 - ray_dir.refractCos normal * ray_dir.refractCos normal)
    (hperp : 0 ≤ sqrt |1 - (ray_dir.refractPerp normal
          (if front_face then 1 / mat_ior else mat_ior)).dot
          (ray_dir.refractPerp normal (if front_face then 1 / mat_ior else mat_ior))| ∧
      sqrt |1 - (ray_dir.refractPerp normal
          (if front_face then 1 / mat_ior else mat_ior)).dot
          (ray_dir.refractPerp normal (if front_face then 1 / mat_ior else mat_ior))| *
        sqrt |1 - (ray_dir.refractPerp normal
          (if front_face then 1 / mat_ior else mat_ior)).dot
          (ray_dir.refractPerp normal (if front_face then 1 / mat_ior else mat_ior))| =
        |1 - (ray_dir.refractPerp normal
          (if front_face then 1 / mat_ior else mat_ior)).dot
          (ray_dir.refractPerp normal (if front_face then 1 / mat_ior else mat_ior))|) :
    (∃ res, transmissionDirection sqrt ξ offset mat_ior front_face
      ray_dir normal specular = some res) ∧
    (ray_dir.canRefract sqrt normal (if front_face then 1 / mat_ior else mat_ior) =
        some true →
      ∃ r, ray_dir.refract sqrt normal
          (if front_face then 1 / mat_ior else mat_ior) = some r ∧ r.dot r = 1) := by
  set i := (if front_face then 1 / mat_ior else mat_ior) with hi
  have hiorpos : 0 < i := by
    rw [hi]
    cases front_face <;> simp <;> positivity
  have habs_d : |ray_dir.dot ray_dir - 1| < 1 / 1000000 := by
    rw [hd]; norm_num
  have habs_n : |normal.dot normal - 1| < 1 / 1000000 := by
    rw [hn]; norm_num
  have hnorm : ray_dir.normalize sqrt = ray_dir := by
    unfold Vec3.normalize
    rw [hd, h1]
    apply Vec3.ext_comp <;> simp
  have hcs : (ray_dir.dot normal) ^ 2 ≤ 1 := by
    have := Vec3.dot_sq_le ray_dir normal
    rw [hd, hn] at this
    linarith
  have hcos : ray_dir.refractCos normal = -(ray_dir.dot normal) := by
    unfold Vec3.refractCos
    rw [Vec3.dot_neg_right]
    exact min_eq_left (by nlinarith)
  have hcr_eq : ray_dir.canRefract sqrt normal i =
      some (decide (i *
        sqrt (1 - ray_dir.refractCos normal * ray_dir.refractCos normal) ≤ 1)) := by
    unfold Vec3.canRefract
    rw [if_neg (not_not_intro habs_d)]
  have hrefr_eq : ray_dir.refract sqrt normal i =
      some (ray_dir.refractPerp normal i +
        (-(sqrt |1 - (ray_dir.refractPerp normal i).dot
            (ray_dir.refractPerp normal i)|)) • normal) := by
    unfold Vec3.refract
    rw [if_neg (not_not_intro habs_d), if_neg (not_not_intro habs_n)]
  constructor
  · simp only [transmissionDirection, hnorm]
    rw [← hi]
    split
    · rw [hcr_eq]
      rcases Bool.eq_false_or_eq_true
          (decide (i * sqrt (1 - ray_dir.refractCos normal *
            ray_dir.refractCos normal) ≤ 1)) with hb | hb <;> rw [hb]
      · rw [hrefr_eq]
        exact ⟨_, rfl⟩
      · exact ⟨specular, rfl⟩
    · exact ⟨specular, rfl⟩
  · intro hcr
    rw [hcr_eq] at hcr
    have hle : i * sqrt (1 - ray_dir.refractCos normal *
        ray_dir.refractCos normal) ≤ 1 :=
      of_decide_eq_true (Option.some.inj hcr)
    refine ⟨_, hrefr_eq, ?_⟩
    have hperpn : (ray_dir.refractPerp normal i).dot normal = 0 := by
      unfold Vec3.refractPerp
      rw [Vec3.dot_smul_left, Vec3.dot_add_left, Vec3.dot_smul_left, hcos, hn]
      ring
    have hpp : (ray_dir.refractPerp normal i).dot (ray_dir.refractPerp normal i) =
        i ^ 2 * (1 - (ray_dir.dot normal) ^ 2) := by
      unfold Vec3.refractPerp
      rw [Vec3.dot_smul_left, Vec3.dot_smul_right, Vec3.dot_add_left,
        Vec3.dot_add_right, Vec3.dot_add_right, Vec3.dot_smul_left,
        Vec3.dot_smul_right, Vec3.dot_smul_left, Vec3.dot_smul_right,
        hcos, hd, hn, Vec3.dot_comm normal ray_dir]
      ring
    have hss : sqrt (1 - ray_dir.refractCos normal * ray_dir.refractCos normal) *
        sqrt (1 - ray_dir.refractCos normal * ray_dir.refractCos normal) =
        1 - (ray_dir.dot normal) ^ 2 := by
      rw [hsin.2, hcos]; ring
    have hpp_le : (ray_dir.refractPerp normal i).dot
        (ray_dir.refractPerp normal i) ≤ 1 := by
      rw [hpp]
      have hts : i ^ 2 * (1 - (ray_dir.dot normal) ^ 2) =
          (i * sqrt (1 - ray_dir.refractCos normal * ray_dir.refractCos normal)) *
            (i * sqrt (1 - ray_dir.refractCos normal * ray_dir.refractCos normal)) := by
        rw [← hss] at *
        ring
      rw [hts]
      nlinarith [mul_nonneg hiorpos.le hsin.1, hle]
    have habs1 : |1 - (ray_dir.refractPerp normal i).dot
        (ray_dir.refractPerp normal i)| =
        1 - (ray_dir.refractPerp normal i).dot (ray_dir.refractPerp normal i) :=
      abs_of_nonneg (by linarith)
    rw [Vec3.dot_add_left, Vec3.dot_add_right, Vec3.dot_add_right,
      Vec3.dot_smul_left, Vec3.dot_smul_right, Vec3.dot_smul_left,
      Vec3.dot_smul_right, hperpn,
      Vec3.dot_comm normal (ray_dir.refractPerp normal i), hperpn, hn]
    have hsq := hperp.2.trans habs1
    linear_combination hsq

/-- C7 witness: head-on ray `(0,0,1)` against normal `(0,0,-1)` with
`ior = 2`, front face, and a square-root oracle exact at 0 and 1. -/
theorem claim_C7_witness :
    (∃ res, transmissionDirection (fun q => if q = 1 then 1 else 0) 0 ⟨0, 0, 0⟩ 2 true
      ⟨0, 0, 1⟩ ⟨0, 0, -1⟩ ⟨0, 0, 1⟩ = some res) ∧
    (Vec3.canRefract (fun q => if q = 1 then 1 else 0) ⟨0, 0, 1⟩ ⟨0, 0, -1⟩
        (if true then 1 / 2 else 2) = some true →
      ∃ r, Vec3.refract (fun q => if q = 1 then 1 else 0) ⟨0, 0, 1⟩ ⟨0, 0, -1⟩
          (if true then 1 / 2 else 2) = some r ∧ r.dot r = 1) := by
  have hrc : Vec3.refractCos ⟨0, 0, 1⟩ ⟨0, 0, -1⟩ = (1 : ℚ) := by
    norm_num [Vec3.refractCos, Vec3.dot]
  have hp : Vec3.refractPerp ⟨0, 0, 1⟩ ⟨0, 0, -1⟩
      (if true then 1 / 2 else (2 : ℚ)) = ⟨0, 0, 0⟩ := by
    unfold Vec3.refractPerp
    rw [hrc]
    apply Vec3.ext_comp <;> norm_num
  exact claim_C7 (fun q => if q = 1 then 1 else 0) 0 ⟨0, 0, 0⟩ 2 true
    ⟨0, 0, 1⟩ ⟨0, 0, -1⟩ ⟨0, 0, 1⟩
    (by norm_num [Vec3.dot]) (by norm_num [Vec3.dot]) (by norm_num) (by norm_num)
    (by rw [hrc]; norm_num)
    (by rw [hp]; norm_num [Vec3.dot])

/-- 3-component vector over `ℝ`, for `scene::camera::Camera`, whose `orbit`
and `zoom` involve transcendental functions (`atan2`, `asin`, `sin`, `cos`,
square roots). -/
structure Vec3R where
  x : ℝ
  y : ℝ
  z : ℝ

def Vec3R.add (a b : Vec3R) : Vec3R := ⟨a.x + b.x, a.y + b.y, a.z + b.z⟩

def Vec3R.sub (a b : Vec3R) : Vec3R := ⟨a.x - b.x, a.y - b.y, a.z - b.z⟩

def Vec3R.smul (q : ℝ) (a : Vec3R) : Vec3R := ⟨q * a.x, q * a.y, q * a.z⟩

def Vec3R.dot (a b : Vec3R) : ℝ := a.x * b.x + a.y * b.y + a.z * b.z

instance : Add Vec3R := ⟨Vec3R.add⟩

instance : Sub Vec3R := ⟨Vec3R.sub⟩

instance : SMul ℝ Vec3R := ⟨Vec3R.smul⟩

@[simp] theorem Vec3R.add_xR (a b : Vec3R) : (a + b).x = a.x + b.x := rfl

@[simp] theorem Vec3R.add_yR (a b : Vec3R) : (a + b).y = a.y + b.y := rfl

@[simp] theorem Vec3R.add_zR (a b : Vec3R) : (a + b).z = a.z + b.z := rfl

@[simp] theorem Vec3R.sub_xR (a b : Vec3R) : (a - b).x = a.x - b.x := rfl

@[simp] theorem Vec3R.sub_yR (a b : Vec3R) : (a - b).y = a.y - b.y := rfl

@[simp] theorem Vec3R.sub_zR (a b : Vec3R) : (a - b).z = a.z - b.z := rfl

@[simp] theorem Vec3R.smul_xR (q : ℝ) (a : Vec3R) : (q • a).x = q * a.x := rfl

@[simp] theorem Vec3R.smul_yR (q : ℝ) (a : Vec3R) : (q • a).y = q * a.y := rfl

@[simp] theorem Vec3R.smul_zR (q : ℝ) (a : Vec3R) : (q • a).z = q * a.z := rfl

theorem Vec3R.ext_compR (a b : Vec3R) (hx : a.x = b.x) (hy : a.y = b.y)
    (hz : a.z = b.z) : a = b := by
  cases a; cases b; simp_all

/-- `cgmath` `InnerSpace::magnitude`: the square root of the self dot
product. -/
noncomputable def Vec3R.magnitude (v : Vec3R) : ℝ := Real.sqrt (v.dot v)

/-- `cgmath` `normalize`: `self * (1 / magnitude)`. -/
noncomputable def Vec3R.normalizeR (v : Vec3R) : Vec3R :=
  (1 / v.magnitude) • v

/-- `cgmath::Matrix4<f32>`. -/
abbrev Mat4 := Matrix (Fin 4) (Fin 4) ℝ

/-- `scene::camera::Projection`. -/
inductive CameraProjection where
  | Perspective (fov : ℝ)
  | Orthographic (size : ℝ)

/-- `scene::camera::Camera`: pose, resolution, projection parameters and the
four cached matrices. -/
structure Camera where
  position : Vec3R
  target : Vec3R
  up : Vec3R
  resolution_x : ℕ
  resolution_y : ℕ
  projection : CameraProjection
  near_clip : ℝ
  far_clip : ℝ
  view_matrix : Mat4
  proj_matrix : Mat4
  inverse_view_matrix : Mat4
  inverse_proj_matrix : Mat4

/-- `Camera::update_matrices` recomputes the four matrix caches from the
current pose (look-at view, perspective/orthographic projection, and their
inverses via `Matrix4::invert().unwrap()`).  The numerical content of those
matrices is irrelevant to the claims under study, so the recomputation is an
oracle `um` from the mutated camera to the four new matrices; what matters —
and what the model pins down — is *when* the caches are rewritten. -/
def Camera.updateMatrices (um : Camera → Mat4 × Mat4 × Mat4 × Mat4)
    (c : Camera) : Camera :=
  { c with
    view_matrix := (um c).1
    proj_matrix := (um c).2.1
    inverse_view_matrix := (um c).2.2.1
    inverse_proj_matrix := (um c).2.2.2 }

/-- `Camera::zoom`: move the position along `position - target` by
`distance`, but only when `distance < |position - target|`; otherwise do
nothing at all (no matrix update either). -/
noncomputable def Camera.zoom (um : Camera → Mat4 × Mat4 × Mat4 × Mat4)
    (c : Camera) (distance : ℝ) : Camera :=
  let camera_to_target := c.position - c.target
  let camera_to_target_distance := camera_to_target.magnitude
  if distance < camera_to_target_distance then
    Camera.updateMatrices um
      { c with position := c.position + distance • camera_to_target.normalizeR }
  else c

/-- C8: `zoom(d)` with `d ≥ |position - target|` returns the camera with
every field — pose, resolution, clip planes, and all four cached matrices —
unchanged; with `d < |position - target|` it moves the position by `d` along
the normalized `position - target` axis and leaves the target untouched. -/
theorem claim_C8 (um : Camera → Mat4 × Mat4 × Mat4 × Mat4) (c : Camera) (d : ℝ) :
    ((c.position - c.target).magnitude ≤ d → Camera.zoom um c d = c) ∧
    (d < (c.position - c.target).magnitude →
      (Camera.zoom um c d).position =
        c.position + d • (c.position - c.target).normalizeR ∧
      (Camera.zoom um c d).target = c.target) := by
  constructor
  · intro hge
    unfold Camera.zoom
    rw [if_neg (not_lt.mpr hge)]
  · intro hlt
    unfold Camera.zoom
    rw [if_pos hlt]
    exact ⟨rfl, rfl⟩

/-- C8 witness: camera at `(3,0,0)` targeting the origin (distance 3);
`zoom 5` is a no-op and `zoom 1` keeps the target. -/
theorem claim_C8_witness :
    (Camera.zoom (fun _ => (0, 0, 0, 0))
      ⟨⟨3, 0, 0⟩, ⟨0, 0, 0⟩, ⟨0, 1, 0⟩, 16, 16, CameraProjection.Perspective 60,
        1 / 10, 100, 0, 0, 0, 0⟩ 5 =
      ⟨⟨3, 0, 0⟩, ⟨0, 0, 0⟩, ⟨0, 1, 0⟩, 16, 16, CameraProjection.Perspective 60,
        1 / 10, 100, 0, 0, 0, 0⟩) ∧
    (Camera.zoom (fun _ => (0, 0, 0, 0))
      ⟨⟨3, 0, 0⟩, ⟨0, 0, 0⟩, ⟨0, 1, 0⟩, 16, 16, CameraProjection.Perspective 60,
        1 / 10, 100, 0, 0, 0, 0⟩ 1).target = ⟨0, 0, 0⟩ := by
  have hmag : ((⟨⟨3, 0, 0⟩, ⟨0, 0, 0⟩, ⟨0, 1, 0⟩, 16, 16,
      CameraProjection.Perspective 60, 1 / 10, 100, 0, 0, 0, 0⟩ : Camera).position -
      (⟨⟨3, 0, 0⟩, ⟨0, 0, 0⟩, ⟨0, 1, 0⟩, 16, 16, CameraProjection.Perspective 60,
        1 / 10, 100, 0, 0, 0, 0⟩ : Camera).target).magnitude = 3 := by
    show Vec3R.magnitude _ = 3
    unfold Vec3R.magnitude
    rw [show ((⟨3, 0, 0⟩ : Vec3R) - ⟨0, 0, 0⟩).dot ((⟨3, 0, 0⟩ : Vec3R) - ⟨0, 0, 0⟩) =
      (3 : ℝ) ^ 2 by norm_num [Vec3R.dot]]
    exact Real.sqrt_sq (by norm_num)
  constructor
  · exact (claim_C8 (fun _ => (0, 0, 0, 0)) _ 5).1 (by rw [hmag]; norm_num)
  · exact ((claim_C8 (fun _ => (0, 0, 0, 0)) _ 1).2 (by rw [hmag]; norm_num)).2

/-- `f32::atan2(y, x)`: the argument of the complex number `x + y i`, in
`(-π, π]`, matching the IEEE `atan2` convention on the reals. -/
noncomputable def atan2 (y x : ℝ) : ℝ := Complex.arg ⟨x, y⟩

/-- Rust `clamp(lo, hi)`. -/
noncomputable def clampR (v lo hi : ℝ) : ℝ := min (max v lo) hi

theorem atan2_cos (y x : ℝ) (h : (⟨x, y⟩ : ℂ) ≠ 0) :
    Real.cos (atan2 y x) = x / Real.sqrt (x ^ 2 + y ^ 2) := by
  unfold atan2
  rw [Complex.cos_arg h, Complex.abs_apply, Complex.normSq_mk]
  norm_num
  ring_nf

theorem atan2_sin (y x : ℝ) :
    Real.sin (atan2 y x) = y / Real.sqrt (x ^ 2 + y ^ 2) := by
  unfold atan2
  rw [Complex.sin_arg, Complex.abs_apply, Complex.normSq_mk]
  norm_num
  ring_nf

/-- `Camera::orbit`: convert `position - target` to spherical coordinates
(radius, azimuth via `atan2(z, x)`, elevation via `asin(y / radius)`), shift
azimuth by `-screen_delta.x * 0.01` and elevation by `screen_delta.y * 0.01`
clamped to `±(π/2 - 0.01)`, rebuild the offset and update the matrices. -/
noncomputable def Camera.orbit (um : Camera → Mat4 × Mat4 × Mat4 × Mat4)
    (c : Camera) (screen_delta : ℝ × ℝ) : Camera :=
  let offset := c.position - c.target
  let radius := offset.magnitude
  let azimuth := atan2 offset.z offset.x
  let elevation := Real.arcsin (offset.y / radius)
  let new_azimuth := azimuth - screen_delta.1 * (1 / 100)
  let new_elevation := clampR (elevation + screen_delta.2 * (1 / 100))
      (-(Real.pi / 2) + 1 / 100) (Real.pi / 2 - 1 / 100)
  let new_offset : Vec3R :=
    ⟨radius * Real.cos new_elevation * Real.cos new_azimuth,
     radius * Real.sin new_elevation,
     radius * Real.cos new_elevation * Real.sin new_azimuth⟩
  Camera.updateMatrices um { c with position := c.target + new_offset }

theorem orbit_target (um : Camera → Mat4 × Mat4 × Mat4 × Mat4) (c : Camera)
    (sd : ℝ × ℝ) : (Camera.orbit um c sd).target = c.target := rfl

theorem orbit_pos (um : Camera → Mat4 × Mat4 × Mat4 × Mat4) (c : Camera)
    (sdx sdy : ℝ) :
    (Camera.orbit um c (sdx, sdy)).position =
      c.target +
        ⟨(c.position - c.target).magnitude *
            Real.cos (clampR (Real.arcsin ((c.position - c.target).y /
                (c.position - c.target).magnitude) + sdy * (1 / 100))
              (-(Real.pi / 2) + 1 / 100) (Real.pi / 2 - 1 / 100)) *
            Real.cos (atan2 (c.position - c.target).z (c.position - c.target).x -
              sdx * (1 / 100)),
          (c.position - c.target).magnitude *
            Real.sin (clampR (Real.arcsin ((c.position - c.target).y /
                (c.position - c.target).magnitude) + sdy * (1 / 100))
              (-(Real.pi / 2) + 1 / 100) (Real.pi / 2 - 1 / 100)),
          (c.position - c.target).magnitude *
            Real.cos (clampR (Real.arcsin ((c.position - c.target).y /
                (c.position - c.target).magnitude) + sdy * (1 / 100))
              (-(Real.pi / 2) + 1 / 100) (Real.pi / 2 - 1 / 100)) *
            Real.sin (atan2 (c.position - c.target).z (c.position - c.target).x -
              sdx * (1 / 100))⟩ := rfl

/-- C9: for a camera whose elevation is strictly inside the `±(π/2 - 0.01)`
clamp range before and after the first call (and with the camera not sitting
on its target), `orbit (dx, dy)` followed by `orbit (-dx, -dy)` restores the
position exactly (hence within the claimed `1e-4`), and neither call moves
the target. -/
theorem claim_C9 (um : Camera → Mat4 × Mat4 × Mat4 × Mat4) (c : Camera) (dx dy : ℝ)
    (hr : 0 < (c.position - c.target).magnitude)
    (hel0 : |Real.arcsin ((c.position - c.target).y /
        (c.position - c.target).magnitude)| < Real.pi / 2 - 1 / 100)
    (hel1 : |Real.arcsin ((c.position - c.target).y /
        (c.position - c.target).magnitude) + dy * (1 / 100)| <
      Real.pi / 2 - 1 / 100) :
    (Camera.orbit um c (dx, dy)).target = c.target ∧
    (Camera.orbit um (Camera.orbit um c (dx, dy)) (-dx, -dy)).target = c.target ∧
    ((Camera.orbit um (Camera.orbit um c (dx, dy)) (-dx, -dy)).position -
        c.position).magnitude ≤ 1 / 10000 := by
  refine ⟨orbit_target um c (dx, dy),
    (orbit_target um _ (-dx, -dy)).trans (orbit_target um c (dx, dy)), ?_⟩
  set o := c.position - c.target with ho
  set r := o.magnitude with hrdef
  have hdot_eq : o.dot o = o.x * o.x + o.y * o.y + o.z * o.z := rfl
  have hdot_nonneg : 0 ≤ o.dot o := by
    rw [hdot_eq]
    nlinarith [mul_self_nonneg o.x, mul_self_nonneg o.y, mul_self_nonneg o.z]
  have hrsqrt : r = Real.sqrt (o.dot o) := rfl
  have hr2 : r ^ 2 = o.dot o := by rw [hrsqrt]; exact Real.sq_sqrt hdot_nonneg
  set el := Real.arcsin (o.y / r) with heldef
  set az := atan2 o.z o.x with hazdef
  have hrpos : 0 < r := hr
  have hrne : r ≠ 0 := ne_of_gt hrpos
  have hy2 : o.y * o.y ≤ r ^ 2 := by
    rw [hr2, hdot_eq]; nlinarith [sq_nonneg o.x, sq_nonneg o.z]
  have hyle : o.y ≤ r := by nlinarith
  have hyge : -r ≤ o.y := by nlinarith
  have hsin_el : Real.sin el = o.y / r := by
    rw [heldef]
    exact Real.sin_arcsin (by rw [le_div_iff hrpos]; linarith)
      (by rw [div_le_one hrpos]; exact hyle)
  have hel_lt : |el| < Real.pi / 2 := lt_of_lt_of_le hel0 (by linarith)
  have hel_bounds := abs_lt.mp hel_lt
  have hcos_el_pos : 0 < Real.cos el :=
    Real.cos_pos_of_mem_Ioo ⟨hel_bounds.1, hel_bounds.2⟩
  set rho := Real.sqrt (o.x ^ 2 + o.z ^ 2) with hrhodef
  have hrho_sq : rho ^ 2 = o.x ^ 2 + o.z ^ 2 := Real.sq_sqrt (by positivity)
  have hsub : r ^ 2 - o.y ^ 2 = o.x ^ 2 + o.z ^ 2 := by rw [hr2, hdot_eq]; ring
  have hcos_el : Real.cos el = rho / r := by
    rw [heldef, Real.cos_arcsin]
    rw [show 1 - (o.y / r) ^ 2 = (rho / r) ^ 2 by
      rw [div_pow, div_pow]
      rw [eq_div_iff (pow_ne_zero 2 hrne)]
      rw [hrho_sq]
      field_simp
      linarith [hsub]]
    exact Real.sqrt_sq (by positivity)
  have hrho_pos : 0 < rho := by
    have h := hcos_el_pos
    rw [hcos_el] at h
    rcases div_pos_iff.mp h with ⟨h1, _⟩ | ⟨_, h2⟩
    · exact h1
    · linarith
  have hz_ne : (⟨o.x, o.z⟩ : ℂ) ≠ 0 := by
    intro hzz
    have hx0 : o.x = 0 := by simpa using congrArg Complex.re hzz
    have hz0 : o.z = 0 := by simpa using congrArg Complex.im hzz
    rw [hx0, hz0] at hrho_sq
    norm_num at hrho_sq
    nlinarith
  have hcos_az : Real.cos az = o.x / rho := by
    rw [hazdef, atan2_cos o.z o.x hz_ne, ← hrhodef]
  have hsin_az : Real.sin az = o.z / rho := by
    rw [hazdef, atan2_sin o.z o.x, ← hrhodef]
  have hclamp1 : clampR (el + dy * (1 / 100)) (-(Real.pi / 2) + 1 / 100)
      (Real.pi / 2 - 1 / 100) = el + dy * (1 / 100) := by
    have hb := abs_lt.mp hel1
    unfold clampR
    rw [max_eq_left (by linarith), min_eq_left (by linarith)]
  have hpos1 : (Camera.orbit um c (dx, dy)).position =
      c.target + ⟨r * Real.cos (el + dy * (1 / 100)) * Real.cos (az - dx * (1 / 100)),
        r * Real.sin (el + dy * (1 / 100)),
        r * Real.cos (el + dy * (1 / 100)) * Real.sin (az - dx * (1 / 100))⟩ := by
    rw [orbit_pos um c dx dy, ← ho, ← hrdef, ← heldef, ← hazdef, hclamp1]
  set elp := el + dy * (1 / 100) with helpdef
  set azp := az - dx * (1 / 100) with hazpdef
  set v1 : Vec3R := ⟨r * Real.cos elp * Real.cos azp, r * Real.sin elp,
    r * Real.cos elp * Real.sin azp⟩ with hv1def
  have ho1 : (Camera.orbit um c (dx, dy)).position -
      (Camera.orbit um c (dx, dy)).target = v1 := by
    rw [hpos1, orbit_target]
    apply Vec3R.ext_compR <;> simp
  have hv1dot : v1.dot v1 = r ^ 2 := by
    show (r * Real.cos elp * Real.cos azp) * (r * Real.cos elp * Real.cos azp) +
      (r * Real.sin elp) * (r * Real.sin elp) +
      (r * Real.cos elp * Real.sin azp) * (r * Real.cos elp * Real.sin azp) = r ^ 2
    linear_combination (r ^ 2 * (Real.cos elp) ^ 2) * Real.sin_sq_add_cos_sq azp +
      r ^ 2 * Real.sin_sq_add_cos_sq elp
  have hmag1 : v1.magnitude = r := by
    unfold Vec3R.magnitude
    rw [hv1dot]
    exact Real.sqrt_sq hrpos.le
  have help_lt : |elp| < Real.pi / 2 := lt_of_lt_of_le hel1 (by linarith)
  have hbndp := abs_lt.mp help_lt
  have hcos_elp_pos : 0 < Real.cos elp :=
    Real.cos_pos_of_mem_Ioo ⟨hbndp.1, hbndp.2⟩
  have harcsin1 : Real.arcsin (v1.y / v1.magnitude) = elp := by
    rw [hmag1, show v1.y / r = Real.sin elp by
      show (r * Real.sin elp) / r = _
      field_simp]
    exact Real.arcsin_sin (by linarith) (by linarith)
  have hxz1 : v1.x ^ 2 + v1.z ^ 2 = (r * Real.cos elp) ^ 2 := by
    show (r * Real.cos elp * Real.cos azp) ^ 2 +
      (r * Real.cos elp * Real.sin azp) ^ 2 = _
    linear_combination ((r * Real.cos elp) ^ 2) * Real.sin_sq_add_cos_sq azp
  have hrc_pos : 0 < r * Real.cos elp := mul_pos hrpos hcos_elp_pos
  have hz1_ne : (⟨v1.x, v1.z⟩ : ℂ) ≠ 0 := by
    intro hzz
    have hx0 : v1.x = 0 := by simpa using congrArg Complex.re hzz
    have hz0 : v1.z = 0 := by simpa using congrArg Complex.im hzz
    have h0 : (r * Real.cos elp) ^ 2 = 0 := by rw [← hxz1, hx0, hz0]; ring
    exact (pow_ne_zero 2 (ne_of_gt hrc_pos)) h0
  have hcos_az2 : Real.cos (atan2 v1.z v1.x) = Real.cos azp := by
    rw [atan2_cos v1.z v1.x hz1_ne, hxz1, Real.sqrt_sq hrc_pos.le,
      show v1.x = r * Real.cos elp * Real.cos azp from rfl]
    field_simp
  have hsin_az2 : Real.sin (atan2 v1.z v1.x) = Real.sin azp := by
    rw [atan2_sin v1.z v1.x, hxz1, Real.sqrt_sq hrc_pos.le,
      show v1.z = r * Real.cos elp * Real.sin azp from rfl]
    field_simp
  have hclamp2 : clampR (Real.arcsin (v1.y / v1.magnitude) + -dy * (1 / 100))
      (-(Real.pi / 2) + 1 / 100) (Real.pi / 2 - 1 / 100) = el := by
    rw [harcsin1, show elp + -dy * (1 / 100) = el by rw [helpdef]; ring]
    have hb := abs_lt.mp hel0
    unfold clampR
    rw [max_eq_left (by linarith), min_eq_left (by linarith)]
  have hpos2 : (Camera.orbit um (Camera.orbit um c (dx, dy)) (-dx, -dy)).position =
      (Camera.orbit um c (dx, dy)).target +
      ⟨r * Real.cos el * Real.cos (atan2 v1.z v1.x - -dx * (1 / 100)),
        r * Real.sin el,
        r * Real.cos el * Real.sin (atan2 v1.z v1.x - -dx * (1 / 100))⟩ := by
    rw [orbit_pos um (Camera.orbit um c (dx, dy)) (-dx) (-dy), ho1, hclamp2, hmag1]
  have hcos_f : Real.cos (atan2 v1.z v1.x - -dx * (1 / 100)) = Real.cos az := by
    rw [Real.cos_sub, hcos_az2, hsin_az2, hazpdef, Real.cos_sub, Real.sin_sub,
      show -dx * (1 / 100) = -(dx * (1 / 100)) by ring, Real.cos_neg, Real.sin_neg]
    linear_combination Real.cos az * Real.sin_sq_add_cos_sq (dx * (1 / 100))
  have hsin_f : Real.sin (atan2 v1.z v1.x - -dx * (1 / 100)) = Real.sin az := by
    rw [Real.sin_sub, hcos_az2, hsin_az2, hazpdef, Real.cos_sub, Real.sin_sub,
      show -dx * (1 / 100) = -(dx * (1 / 100)) by ring, Real.cos_neg, Real.sin_neg]
    linear_combination Real.sin az * Real.sin_sq_add_cos_sq (dx * (1 / 100))
  have hx : r * Real.cos el * Real.cos az = o.x := by
    rw [hcos_el, hcos_az]
    field_simp
  have hyy : r * Real.sin el = o.y := by
    rw [hsin_el]
    field_simp
  have hz : r * Real.cos el * Real.sin az = o.z := by
    rw [hcos_el, hsin_az]
    field_simp
  have hox : o.x = c.position.x - c.target.x := by rw [ho]; simp
  have hoy : o.y = c.position.y - c.target.y := by rw [ho]; simp
  have hoz : o.z = c.position.z - c.target.z := by rw [ho]; simp
  have hfinal : (Camera.orbit um (Camera.orbit um c (dx, dy)) (-dx, -dy)).position =
      c.position := by
    rw [hpos2, orbit_target, hcos_f, hsin_f]
    apply Vec3R.ext_compR <;> simp [hx, hyy, hz, hox, hoy, hoz]
  rw [hfinal]
  have hzero : c.position - c.position = (⟨0, 0, 0⟩ : Vec3R) := by
    apply Vec3R.ext_compR <;> simp
  rw [hzero]
  rw [show (⟨0, 0, 0⟩ : Vec3R).magnitude = 0 by
    unfold Vec3R.magnitude
    rw [show Vec3R.dot ⟨0, 0, 0⟩ ⟨0, 0, 0⟩ = 0 by norm_num [Vec3R.dot]]
    exact Real.sqrt_zero]
  norm_num

/-- Concrete camera for the C9 witness: at `(1,0,0)` targeting the origin
(radius 1, elevation 0). -/
noncomputable def cam9 : Camera :=
  ⟨⟨1, 0, 0⟩, ⟨0, 0, 0⟩, ⟨0, 1, 0⟩, 16, 16, CameraProjection.Perspective 60,
    1, 100, 0, 0, 0, 0⟩

/-- Trivial matrix-update oracle for the C9 witness. -/
def um9 : Camera → Mat4 × Mat4 × Mat4 × Mat4 := fun _ => (0, 0, 0, 0)

/-- C9 witness: the orbit round trip at `(dx, dy) = (0, 0)` on `cam9`. -/
theorem claim_C9_witness :
    (Camera.orbit um9 cam9 (0, 0)).target = cam9.target ∧
    (Camera.orbit um9 (Camera.orbit um9 cam9 (0, 0)) (-0, -0)).target = cam9.target ∧
    ((Camera.orbit um9 (Camera.orbit um9 cam9 (0, 0)) (-0, -0)).position -
        cam9.position).magnitude ≤ 1 / 10000 := by
  have hmag : (cam9.position - cam9.target).magnitude = 1 := by
    unfold Vec3R.magnitude
    rw [show (cam9.position - cam9.target).dot (cam9.position - cam9.target) = 1 by
      norm_num [cam9, Vec3R.dot]]
    exact Real.sqrt_one
  have hy0 : (cam9.position - cam9.target).y = 0 := by norm_num [cam9]
  apply claim_C9
  · rw [hmag]
    norm_num
  · rw [hy0, hmag]
    simp [Real.arcsin_zero]
    linarith [Real.pi_gt_three]
  · rw [hy0, hmag]
    simp [Real.arcsin_zero]
    linarith [Real.pi_gt_three]
